import Mathlib

/-!
Verification development for the `parallel` command-line tool
(src/parallel.cc, src/util.hpp).

The program reads input lines, substitutes each line into a command
template with `fmt::format`, and runs the resulting shell commands on a
fixed-size taskflow worker pool.  This file embeds the program's pure
logic (template substitution, word joining, marker search, configuration
resolution) and a small-step model of the bounded worker-pool dispatch
engine, and proves the specification's testable properties about them.
-/

namespace Parallel

/-! ## Model of fmt::format with a single string argument

`execute` in src/parallel.cc calls `fmt::format(command_template, input)`
with a runtime format string and exactly one argument.  The fmt library is
an external dependency (not part of this repository), so its
format-string processing is modelled here, following fmt's documented
replacement-field grammar for runtime format strings:

  * literal text is copied; `{{` and `}}` are escapes for `{` and `}`;
  * a lone `}` is an error (fmt: "unmatched '}' in format string");
  * `{}` is an automatic replacement field: the first one receives
    argument 0 (the input); a second automatic field requests argument 1,
    which does not exist (fmt: "argument not found");
  * `{N}` is a manual index: `{0}` (with any number of leading zeros)
    receives the input, any other index is "argument not found"; mixing
    automatic and manual indexing is an error;
  * `{` followed by a letter or `_` starts a named argument, and no named
    arguments are supplied ("argument not found");
  * `{` followed by any other character is "invalid format string";
  * a `:` starts a format specification.  The empty spec and the plain
    string spec `s` format the argument unchanged; all other
    specifications (fill/align/width/precision) are conservatively
    mapped to `FmtError.specUnsupported`.  No claim in this development
    depends on a template containing a nonempty format specification.
-/

/-- Errors raised by fmt::format (thrown as fmt::format_error in C++). -/
inductive FmtError where
  | argumentNotFound
  | invalidFormat
  | unmatchedBrace
  | indexingSwitch
  | specUnsupported
deriving DecidableEq

/-- Argument-indexing mode of the fmt format-string parser: no
replacement field seen yet, automatic indexing, or manual indexing. -/
inductive ArgMode where
  | unset
  | auto
  | manual
deriving DecidableEq

/-- Position of the fmt format-string scanner: plain text, just after a
lone `}`, just after a `{`, inside a manual argument index (recording
whether a nonzero digit was seen), or inside a format specification
(empty so far, exactly `s` so far, or anything else). -/
inductive FmtField where
  | text
  | closeB
  | openB
  | manualId (nonzero : Bool)
  | specE
  | specS
  | specO
deriving DecidableEq

/-- Core scanner of fmt::format with the single argument `arg`:
processes the format string `cs` one character at a time, carrying the
scanner position `fld`, the indexing mode `m` and the output
accumulator `acc`. -/
def fmtCore (arg : List Char) (cs : List Char) (fld : FmtField) (m : ArgMode)
    (acc : List Char) : Except FmtError (List Char) :=
  match fld, cs with
  | .text, [] => .ok acc
  | .text, c :: cs =>
    if c = '{' then fmtCore arg cs .openB m acc
    else if c = '}' then fmtCore arg cs .closeB m acc
    else fmtCore arg cs .text m (acc ++ [c])
  | .closeB, [] => .error .unmatchedBrace
  | .closeB, c :: cs =>
    if c = '}' then fmtCore arg cs .text m (acc ++ ['}'])
    else .error .unmatchedBrace
  | .openB, [] => .error .invalidFormat
  | .openB, c :: cs =>
    if c = '{' then fmtCore arg cs .text m (acc ++ ['{'])
    else if c = '}' then
      match m with
      | .manual => .error .indexingSwitch
      | .auto => .error .argumentNotFound
      | .unset => fmtCore arg cs .text .auto (acc ++ arg)
    else if c = ':' then
      match m with
      | .manual => .error .indexingSwitch
      | .auto => .error .argumentNotFound
      | .unset => fmtCore arg cs .specE .auto acc
    else if c.isDigit then
      match m with
      | .auto => .error .indexingSwitch
      | _ => fmtCore arg cs (.manualId (c != '0')) .manual acc
    else if c.isAlpha || c = '_' then .error .argumentNotFound
    else .error .invalidFormat
  | .manualId _, [] => .error .invalidFormat
  | .manualId nz, c :: cs =>
    if c.isDigit then fmtCore arg cs (.manualId (nz || (c != '0'))) m acc
    else if c = '}' then
      if nz then .error .argumentNotFound
      else fmtCore arg cs .text m (acc ++ arg)
    else if c = ':' then
      if nz then .error .argumentNotFound
      else fmtCore arg cs .specE m acc
    else .error .invalidFormat
  | .specE, [] => .error .invalidFormat
  | .specE, c :: cs =>
    if c = '}' then fmtCore arg cs .text m (acc ++ arg)
    else if c = 's' then fmtCore arg cs .specS m acc
    else if c = '{' then .error .specUnsupported
    else fmtCore arg cs .specO m acc
  | .specS, [] => .error .invalidFormat
  | .specS, c :: cs =>
    if c = '}' then fmtCore arg cs .text m (acc ++ arg)
    else fmtCore arg cs .specO m acc
  | .specO, [] => .error .invalidFormat
  | .specO, c :: cs =>
    if c = '}' then .error .specUnsupported
    else if c = '{' then .error .specUnsupported
    else fmtCore arg cs .specO m acc

/-- fmt::format(command_template, input) with one string argument: the
substitution step performed by `execute` in src/parallel.cc. -/
def fmtFormat1 (tmpl input : String) : Except FmtError String :=
  match fmtCore input.toList tmpl.toList .text .unset [] with
  | .ok out => .ok (String.mk out)
  | .error e => .error e

/-- `true` when the character list contains no brace character. -/
def noBrace : List Char → Bool
  | [] => true
  | c :: cs => (decide (c ≠ '{') && decide (c ≠ '}')) && noBrace cs

/-- Replacement of every occurrence of the two-character marker by the
input, written from the spec's words ("Substitution replaces every
occurrence of the marker with the literal input text; no recursive
substitution; no quoting/escaping applied"), for comparison with the
code's actual substitution `fmtFormat1`. -/
def specReplace (inp : List Char) : List Char → List Char
  | [] => []
  | '{' :: '}' :: cs => inp ++ specReplace inp cs
  | c :: cs => c :: specReplace inp cs

/-- Spec-side render function: the template with every occurrence of the
marker replaced by the literal input text. -/
def specRender (tmpl input : String) : String :=
  String.mk (specReplace input.toList tmpl.toList)

/-- The placeholder marker, written `"{}"` in src/util.hpp and
src/parallel.cc. -/
def markerStr : String := String.mk ['{', '}']

/-! ## Model of `execute` (src/parallel.cc lines 3-7)

`execute` formats the command template with the input and hands the
resulting string to `system`.  The external world is modelled as the
list of command strings passed to `system`, in order; the return value
of `system` is discarded by the code.  `execute` takes the template by
reference and never assigns to it, so the model returns the template
along with the updated state; a formatting error propagates as an
exception (`Except.error`). -/

/-- The observable effect of the program: the command strings passed to
`system`, in order. -/
structure SysState where
  executed : List String
deriving DecidableEq

/-- Model of `execute(command_template, input)` from src/parallel.cc. -/
def execute (command_template input : String) (s : SysState) :
    Except FmtError (String × SysState) :=
  match fmtFormat1 command_template input with
  | .ok cmd => .ok (command_template, ⟨s.executed ++ [cmd]⟩)
  | .error e => .error e

/-! ## Model of src/util.hpp -/

/-- Model of `join<' '>` from src/util.hpp: starts from the first
element and appends `' ' + element` for each remaining element.  The
C++ function dereferences `vec.begin()` unconditionally, so the empty
case is undefined behaviour there; it is unreachable in the program
(join is only called on a vector containing the marker word) and is
mapped to the empty string here. -/
def join (vec : List String) : String :=
  match vec with
  | [] => ""
  | x :: rest => rest.foldl (fun s a => s ++ (String.singleton ' ' ++ a)) x

/-- Words joined by exactly one space character (spec-side description
of the joined command string). -/
def singleSpaceJoined : List String → String
  | [] => ""
  | [x] => x
  | x :: y :: rest => x ++ " " ++ singleSpaceJoined (y :: rest)

/-- Model of `find` from src/util.hpp: index of the first element equal
to `value`, or -1. -/
def findAux (value : String) : Nat → List String → Int
  | _, [] => -1
  | i, x :: xs => if x = value then (i : Int) else findAux value (i + 1) xs

/-- `find(vec, value)` from src/util.hpp. -/
def find (vec : List String) (value : String) : Int :=
  findAux value 0 vec

/-- `true` when the character list contains two adjacent spaces. -/
def hasTwoSpaces : List Char → Bool
  | ' ' :: ' ' :: _ => true
  | _ :: cs => hasTwoSpaces cs
  | [] => false

/-- `true` when the string contains a run of at least two spaces. -/
def hasDoubleSpace (s : String) : Bool :=
  hasTwoSpaces s.toList

/-- `true` when the character list contains the marker `{}` as a
contiguous substring. -/
def hasMarkerSub : List Char → Bool
  | '{' :: '}' :: _ => true
  | _ :: cs => hasMarkerSub cs
  | [] => false

/-! ## Model of `get_cli_args` (src/util.hpp)

The argparse library (argparse.hpp) is an external dependency, so the
result of a successful `parse_args` call is modelled as a record of
which options were supplied.  Notes on fidelity:

  * `threads` holds the `stoi` value of the `--threads` option.  When
    the option is absent, `p.get` throws `std::logic_error`; when it is
    present but not a number, `std::stoi` throws `std::invalid_argument`
    (also a `std::logic_error`); both land in the same `catch` block and
    fall back to hardware auto-detection, so both are modelled as
    `none`.
  * `hardware_concurrency()` is passed in as the parameter `hw`.
  * every error path in the C++ code prints a diagnostic (spdlog::error
    or std::cerr) and then calls `exit(0)`: the recorded exit status is
    the literal argument of that `exit` call, which is 0 on every path.
-/

/-- Options produced by a successful argparse `parse_args` call. -/
structure ParsedArgs where
  debug : Bool
  verbose : Bool
  threads : Option Int
  file : Option String
  command : Option (List String)

/-- Which configuration check failed. -/
inductive ErrKind where
  | conflictingVerbosity
  | badThreads
  | autodetectFailed
  | missingMarker
  | noCommand
  | unreadableFile
deriving DecidableEq

/-- A fatal configuration error: the status passed to `exit` and the
check that failed.  Every such path also emits a diagnostic. -/
structure CliError where
  exitCode : Nat
  kind : ErrKind
deriving DecidableEq

/-- The resolved configuration handed back to `main`.  The C++ code
stores everything in a string map; in particular the stdin flag is the
string `"true"` or `"false"`, which `main` compares against `"true"`. -/
structure Config where
  threads : Int
  filename : String
  stdinStr : String
  command : String
deriving DecidableEq

/-- Thread-count resolution block of `get_cli_args`: a manually given
value below zero is rejected; an absent (or non-numeric) value falls
back to hardware auto-detection, which fails when the detected count
is 0. -/
def threadsResolve (t : Option Int) (hw : Nat) : Except CliError Int :=
  match t with
  | some t => if t < 0 then .error ⟨0, .badThreads⟩ else .ok t
  | none => if hw == 0 then .error ⟨0, .autodetectFailed⟩ else .ok (hw : Int)

/-- Model of `get_cli_args` from src/util.hpp: verbosity conflict check,
thread-count resolution, input-source selection, then command-template
validation (the marker must occur as a whole word) and joining. -/
def get_cli_args (p : ParsedArgs) (hw : Nat) : Except CliError Config :=
  if p.verbose && p.debug then .error ⟨0, .conflictingVerbosity⟩
  else
    match threadsResolve p.threads hw with
    | .error e => .error e
    | .ok t =>
      let fileArgs : String × String :=
        match p.file with
        | some f => (f, "false")
        | none => ("", "true")
      match p.command with
      | none => .error ⟨0, .noCommand⟩
      | some vcmd =>
        if find vcmd markerStr < 0 then .error ⟨0, .missingMarker⟩
        else .ok ⟨t, fileArgs.1, fileArgs.2, join vcmd⟩

/-- Model of `read_file_lines` from src/util.hpp: the filesystem is
abstracted as whether the file opens and the lines it holds; an
unopenable file logs an error and calls `exit(0)`. -/
def read_file_lines (fileReadable : Bool) (contents : List String) :
    Except CliError (List String) :=
  if fileReadable then .ok contents else .error ⟨0, .unreadableFile⟩

/-- The value returned by `main` after the dispatch phase
(src/parallel.cc line 43, `return 0;`): it does not depend on the input
lines or on the exit statuses of the invoked commands, which `execute`
discards. -/
def mainReturnValue (_inputs : List String) (_results : List Int) : Nat := 0


/-! ## Substitution lemmas -/

theorem noBrace_cons {c : Char} {cs : List Char} (h : noBrace (c :: cs) = true) :
    (c ≠ '{' ∧ c ≠ '}') ∧ noBrace cs = true := by
  simp only [noBrace, Bool.and_eq_true, decide_eq_true_eq] at h
  exact ⟨h.1, h.2⟩

theorem fmtCore_text_cons (arg : List Char) (c : Char) (cs : List Char) (m : ArgMode)
    (acc : List Char) (h1 : ¬(c = '{')) (h2 : ¬(c = '}')) :
    fmtCore arg (c :: cs) .text m acc = fmtCore arg cs .text m (acc ++ [c]) := by
  simp only [fmtCore]
  rw [if_neg h1, if_neg h2]

theorem fmtCore_text_all (arg : List Char) (cs : List Char) (h : noBrace cs = true)
    (m : ArgMode) (acc : List Char) :
    fmtCore arg cs .text m acc = .ok (acc ++ cs) := by
  induction cs generalizing acc with
  | nil => simp [fmtCore]
  | cons c cs ih =>
    obtain ⟨⟨h1, h2⟩, h3⟩ := noBrace_cons h
    rw [fmtCore_text_cons arg c cs m acc h1 h2, ih h3]
    simp

theorem fmtCore_text_copy (arg : List Char) (pre : List Char) (h : noBrace pre = true)
    (cs : List Char) (m : ArgMode) (acc : List Char) :
    fmtCore arg (pre ++ cs) .text m acc = fmtCore arg cs .text m (acc ++ pre) := by
  induction pre generalizing acc with
  | nil => simp
  | cons c pre ih =>
    obtain ⟨⟨h1, h2⟩, h3⟩ := noBrace_cons h
    rw [List.cons_append, fmtCore_text_cons arg c (pre ++ cs) m acc h1 h2, ih h3]
    simp

theorem specReplace_cons_ne (inp : List Char) (c : Char) (cs : List Char)
    (hc : ¬(c = '{')) : specReplace inp (c :: cs) = c :: specReplace inp cs := by
  rw [specReplace.eq_def]
  split
  · simp_all
  · simp_all
  · rename_i c' cs' hno heq
    injection heq with h1 h2
    rw [h1, h2]

theorem specReplace_all (inp : List Char) (cs : List Char) (h : noBrace cs = true) :
    specReplace inp cs = cs := by
  induction cs with
  | nil => rfl
  | cons c cs ih =>
    obtain ⟨⟨h1, h2⟩, h3⟩ := noBrace_cons h
    rw [specReplace_cons_ne inp c cs h1, ih h3]

theorem specReplace_copy (inp : List Char) (pre : List Char) (h : noBrace pre = true)
    (cs : List Char) : specReplace inp (pre ++ cs) = pre ++ specReplace inp cs := by
  induction pre with
  | nil => simp
  | cons c pre ih =>
    obtain ⟨⟨h1, h2⟩, h3⟩ := noBrace_cons h
    rw [List.cons_append, specReplace_cons_ne inp c (pre ++ cs) h1, ih h3]
    simp

/-! ## Claim theorems about substitution (C3, C8, C9) -/

/-- A template holding two marker occurrences, `echo {} {}`. -/
def tmplTwoMarkers : String := String.mk ['e', 'c', 'h', 'o', ' ', '{', '}', ' ', '{', '}']

/-- A template holding an escaped brace and a marker, `echo {{ {}`. -/
def tmplEscapedBrace : String := String.mk ['e', 'c', 'h', 'o', ' ', '{', '{', ' ', '{', '}']

/-- C3 counterexample: the substituted command is not the template with
every marker occurrence replaced by the input.  On `echo {} {}` with
input `a` the spec-side global replacement yields `echo a a`, but the
code's substitution (fmt::format with one argument) raises a formatting
error instead; and on `echo {{ {}` the code un-escapes the doubled
brace to `echo { a` rather than passing it through literally. -/
theorem render_not_global_replacement :
    specRender tmplTwoMarkers "a" = "echo a a"
    ∧ fmtFormat1 tmplTwoMarkers "a" = Except.error FmtError.argumentNotFound
    ∧ specRender tmplEscapedBrace "a" = "echo " ++ String.mk ['{', '{'] ++ " a"
    ∧ fmtFormat1 tmplEscapedBrace "a" = Except.ok ("echo " ++ String.mk ['{'] ++ " a") :=
  ⟨rfl, rfl, rfl, rfl⟩

/-- C3 amended: for every template in which the marker occurs exactly
once and no other brace character occurs, the substituted command
equals the template with that occurrence replaced by the literal input
text (no recursive substitution, no quoting or escaping), which on this
domain agrees with the spec-side global replacement. -/
theorem render_single_marker_literal (pre post : List Char) (inp : String)
    (hpre : noBrace pre = true) (hpost : noBrace post = true) :
    fmtFormat1 (String.mk (pre ++ '{' :: '}' :: post)) inp
      = Except.ok (String.mk (pre ++ inp.toList ++ post))
    ∧ fmtFormat1 (String.mk (pre ++ '{' :: '}' :: post)) inp
      = Except.ok (specRender (String.mk (pre ++ '{' :: '}' :: post)) inp) := by
  have hcore : fmtCore inp.toList (pre ++ '{' :: '}' :: post) .text .unset []
      = .ok (pre ++ inp.toList ++ post) := by
    rw [fmtCore_text_copy inp.toList pre hpre ('{' :: '}' :: post) .unset []]
    have h1 : fmtCore inp.toList ('{' :: '}' :: post) .text .unset ([] ++ pre)
        = fmtCore inp.toList ('}' :: post) .openB .unset ([] ++ pre) := by
      simp [fmtCore]
    have h2 : fmtCore inp.toList ('}' :: post) .openB .unset ([] ++ pre)
        = fmtCore inp.toList post .text .auto (([] ++ pre) ++ inp.toList) := by
      simp [fmtCore]
    rw [h1, h2, fmtCore_text_all inp.toList post hpost]
    simp
  have hfmt : fmtFormat1 (String.mk (pre ++ '{' :: '}' :: post)) inp
      = Except.ok (String.mk (pre ++ inp.toList ++ post)) := by
    unfold fmtFormat1
    have : (String.mk (pre ++ '{' :: '}' :: post)).toList = pre ++ '{' :: '}' :: post := rfl
    rw [this, hcore]
  refine ⟨hfmt, ?_⟩
  rw [hfmt]
  unfold specRender
  have : (String.mk (pre ++ '{' :: '}' :: post)).toList = pre ++ '{' :: '}' :: post := rfl
  rw [this, specReplace_copy inp.toList pre hpre,
    show specReplace inp.toList ('{' :: '}' :: post) = inp.toList ++ specReplace inp.toList post
      from rfl,
    specReplace_all inp.toList post hpost]
  simp

/-- Witness for the amended C3 theorem at the concrete template
`echo {}` and input `a`. -/
theorem render_single_marker_literal_inst :
    fmtFormat1 (String.mk (['e', 'c', 'h', 'o', ' '] ++ '{' :: '}' :: [])) "a"
      = Except.ok (String.mk (['e', 'c', 'h', 'o', ' '] ++ "a".toList ++ [])) :=
  (render_single_marker_literal ['e', 'c', 'h', 'o', ' '] [] "a" (by decide) (by decide)).1

/-- C8: the substitution is pure and deterministic: rendering the same
template with the same input a second time yields the identical output
string, and `execute` — which takes the template by reference — hands
back the template unchanged whenever the substitution succeeds. -/
theorem render_pure_and_idempotent (t i : String) (s : SysState) :
    fmtFormat1 t i = fmtFormat1 t i
    ∧ (execute t i s).map (fun r => r.1) = (fmtFormat1 t i).map (fun _ => t) := by
  refine ⟨rfl, ?_⟩
  unfold execute
  cases h : fmtFormat1 t i <;> simp [Except.map]

/-- A command word list whose words are `echo`, a lone `{`, and the
marker `{}`. -/
def vcmdLoneBrace : List String := ["echo", String.mk ['{'], markerStr]

/-- C9: a template that passes the word-level marker validation but
contains an unmatched `{` elsewhere is not passed through verbatim:
substitution raises a formatting error at dispatch time instead of
returning a substituted command. -/
theorem validated_template_can_fault_at_dispatch :
    ¬(find vcmdLoneBrace markerStr < 0)
    ∧ fmtFormat1 (join vcmdLoneBrace) "a" = Except.error FmtError.invalidFormat :=
  ⟨by decide, rfl⟩


/-! ## Lemmas about `find` and `join` -/

theorem findAux_neg_iff (v : String) (xs : List String) :
    ∀ i : Nat, (findAux v i xs < 0 ↔ v ∉ xs) := by
  induction xs with
  | nil => intro i; simp [findAux]
  | cons x xs ih =>
    intro i
    by_cases hx : x = v
    · simp [findAux, hx]
    · have hne : v ≠ x := fun h => hx h.symm
      simp [findAux, hx, ih (i + 1), hne]

theorem find_neg_iff (vec : List String) (v : String) :
    find vec v < 0 ↔ v ∉ vec :=
  findAux_neg_iff v vec 0

theorem singleton_space : String.singleton ' ' = " " := rfl

theorem join_foldl (rest : List String) :
    ∀ x : String,
      rest.foldl (fun s a => s ++ (String.singleton ' ' ++ a)) x
        = singleSpaceJoined (x :: rest) := by
  induction rest with
  | nil => intro x; rfl
  | cons y rest ih =>
    intro x
    rw [List.foldl_cons, ih (x ++ (String.singleton ' ' ++ y))]
    cases rest with
    | nil =>
      show x ++ (String.singleton ' ' ++ y) = x ++ " " ++ y
      simp only [singleton_space, ← String.append_assoc]
    | cons z rest =>
      show (x ++ (String.singleton ' ' ++ y)) ++ " " ++ singleSpaceJoined (z :: rest)
        = x ++ " " ++ (y ++ " " ++ singleSpaceJoined (z :: rest))
      simp only [singleton_space, ← String.append_assoc]

/-! ## Claim theorems about the joined command string (C10) -/

/-- A single command-line word holding an interior run of two spaces,
as produced for example by shell quoting. -/
def doubleSpaceWord : String := "echo  a"

/-- C10 counterexample: whitespace runs in the original command line are
not normalized when they occur inside a single word: joining the words
`echo  a` (one quoted word with two interior spaces) and the marker
yields a command string that still contains a double space. -/
theorem interior_whitespace_preserved :
    join [doubleSpaceWord, markerStr] = doubleSpaceWord ++ " " ++ markerStr
    ∧ hasDoubleSpace (join [doubleSpaceWord, markerStr]) = true :=
  ⟨rfl, rfl⟩

/-- C10 amended: for every non-empty word list, the command string
handed to substitution equals the words joined by exactly one space
character; only the separation between distinct words is normalized,
while whitespace inside an individual word is preserved verbatim. -/
theorem join_single_space (vec : List String) (h : vec ≠ []) :
    join vec = singleSpaceJoined vec := by
  cases vec with
  | nil => exact absurd rfl h
  | cons x rest =>
    show rest.foldl (fun s a => s ++ (String.singleton ' ' ++ a)) x
      = singleSpaceJoined (x :: rest)
    exact join_foldl rest x

/-- Witness for the amended C10 theorem on a concrete word list. -/
theorem join_single_space_inst :
    join ["printf", "x"] = singleSpaceJoined ["printf", "x"] :=
  join_single_space ["printf", "x"] (by simp)

/-! ## Claim theorems about configuration resolution (C4, C5, C6) -/

/-- C4: every configuration error path — conflicting verbosity flags,
negative thread count, failed worker-count auto-detection, missing
placeholder marker, unreadable input file — stops configuration
resolution before any dispatch and emits a diagnostic, but the exit
status passed to `exit` is 0 on every one of these paths (the code
calls `exit(0)`), not a non-zero value. -/
theorem config_errors_exit_status_zero :
    get_cli_args ⟨true, true, none, none, some ["echo", markerStr]⟩ 8
      = Except.error ⟨0, ErrKind.conflictingVerbosity⟩
    ∧ get_cli_args ⟨false, false, some (-2), none, some ["echo", markerStr]⟩ 8
      = Except.error ⟨0, ErrKind.badThreads⟩
    ∧ get_cli_args ⟨false, false, none, none, some ["echo", markerStr]⟩ 0
      = Except.error ⟨0, ErrKind.autodetectFailed⟩
    ∧ get_cli_args ⟨false, false, none, none, some ["echo", "hello"]⟩ 8
      = Except.error ⟨0, ErrKind.missingMarker⟩
    ∧ read_file_lines false [] = Except.error ⟨0, ErrKind.unreadableFile⟩ :=
  ⟨rfl, rfl, rfl, rfl, rfl⟩

/-- C5: a requested worker count of 0 is not rejected: the check in
src/util.hpp is `std::stoi(threads) < 0`, so `--threads 0` passes
configuration resolution (contradicting the code's own diagnostic
"need 1 or more"), while a negative count is rejected — with exit
status 0. -/
theorem zero_threads_accepted :
    get_cli_args ⟨false, false, some 0, none, some ["echo", markerStr]⟩ 4
      = Except.ok ⟨0, "", "true", "echo " ++ markerStr⟩
    ∧ get_cli_args ⟨false, false, some (-1), none, some ["echo", markerStr]⟩ 4
      = Except.error ⟨0, ErrKind.badThreads⟩ :=
  ⟨rfl, rfl⟩

/-- A single word holding the marker inside it, `echo{}`. -/
def wordWithMarkerInside : String := String.mk ['e', 'c', 'h', 'o', '{', '}']

/-- C6 counterexample: a template whose (joined) text contains the
marker, but not as a stand-alone word, is rejected by validation,
although the marker appears (as a substring) in the supplied template
string. -/
theorem marker_substring_rejected :
    hasMarkerSub wordWithMarkerInside.toList = true
    ∧ get_cli_args ⟨false, false, some 2, none, some [wordWithMarkerInside]⟩ 4
      = Except.error ⟨0, ErrKind.missingMarker⟩ :=
  ⟨rfl, rfl⟩

/-- C6 amended: performed exactly once before any dispatch, template
validation fails with a configuration error exactly when no
whitespace-separated word of the supplied command equals the marker;
when some word equals the marker the command passes validation and is
joined into the command string, and a rejected template never reaches a
worker. -/
theorem marker_word_validation (p : ParsedArgs) (hw : Nat) (vcmd : List String)
    (hcmd : p.command = some vcmd)
    (hvd : (p.verbose && p.debug) = false)
    (t : Int) (ht : threadsResolve p.threads hw = Except.ok t) :
    (get_cli_args p hw = Except.error ⟨0, ErrKind.missingMarker⟩ ↔ markerStr ∉ vcmd)
    ∧ (markerStr ∈ vcmd →
        ∃ cfg, get_cli_args p hw = Except.ok cfg ∧ cfg.command = join vcmd) := by
  unfold get_cli_args
  rw [hvd, ht, hcmd]
  simp only [Bool.false_eq_true, if_false]
  by_cases hm : markerStr ∈ vcmd
  · have hfind : ¬(find vcmd markerStr < 0) := by
      rw [find_neg_iff]; simp [hm]
    rw [if_neg hfind]
    refine ⟨?_, ?_⟩
    · simp [hm]
    · intro _; exact ⟨_, rfl, rfl⟩
  · have hfind : find vcmd markerStr < 0 := by rw [find_neg_iff]; exact hm
    rw [if_pos hfind]
    refine ⟨?_, ?_⟩
    · simp [hm]
    · intro h; exact absurd h hm

/-- Witness for the amended C6 theorem at a concrete parsed
configuration, `parallel -t 2 echo {}`. -/
theorem marker_word_validation_inst :
    (get_cli_args ⟨false, false, some 2, none, some ["echo", markerStr]⟩ 4
        = Except.error ⟨0, ErrKind.missingMarker⟩ ↔ markerStr ∉ ["echo", markerStr])
    ∧ (markerStr ∈ ["echo", markerStr] →
        ∃ cfg, get_cli_args ⟨false, false, some 2, none, some ["echo", markerStr]⟩ 4
          = Except.ok cfg ∧ cfg.command = join ["echo", markerStr]) :=
  marker_word_validation ⟨false, false, some 2, none, some ["echo", markerStr]⟩ 4
    ["echo", markerStr] rfl rfl 2 rfl


/-! ## The Dispatch Engine

Modelled from the spec: the Dispatch Engine — `tf::Executor`,
`tf::Taskflow`, `taskflow.for_each` and `executor.run(taskflow).wait()`
used by `main` in src/parallel.cc — is provided by the vendored taskflow
library, which is absent from src/ (only its cuda/cublas headers are
present).  Following the spec's bounded worker-pool description, the
engine is a small-step transition system: a worker may start the next
queued input whenever fewer than `w` invocations are in flight, and any
in-flight invocation may finish with an arbitrary exit status (the
engine never inspects it).  `run` has returned exactly in the states
with nothing pending and nothing in flight. -/

/-- Modelled from the spec: state of the Dispatch Engine — inputs not
yet started, inputs whose invocation is in flight, and completed
invocations with the exit status each produced. -/
structure EngineState where
  pending : List String
  inFlight : List String
  done : List (String × Int)
deriving DecidableEq

/-- Modelled from the spec: one scheduling step of the Dispatch Engine
with worker count `w`.  `start` hands the next queued input to a free
worker (only when fewer than `w` invocations are in flight); `finish`
completes any in-flight invocation with an arbitrary exit status `r`. -/
inductive EngineStep (w : Nat) : EngineState → EngineState → Prop
  | start (x : String) (p f : List String) (d : List (String × Int)) :
      f.length < w → EngineStep w ⟨x :: p, f, d⟩ ⟨p, f ++ [x], d⟩
  | finish (x : String) (r : Int) (p f₁ f₂ : List String) (d : List (String × Int)) :
      EngineStep w ⟨p, f₁ ++ x :: f₂, d⟩ ⟨p, f₁ ++ f₂, d ++ [(x, r)]⟩

/-- Reachability under engine steps. -/
def EngineReach (w : Nat) : EngineState → EngineState → Prop :=
  Relation.ReflTransGen (EngineStep w)

/-- The engine's starting state on an input sequence. -/
def initState (inputs : List String) : EngineState :=
  ⟨inputs, [], []⟩

/-- The states in which `run` has returned: nothing pending, nothing in
flight. -/
def FinalState (s : EngineState) : Prop :=
  s.pending = [] ∧ s.inFlight = []

/-- The inputs a state accounts for: completed, in flight, or still
pending. -/
def bagList (s : EngineState) : List String :=
  s.done.map Prod.fst ++ s.inFlight ++ s.pending

/-- The multiset of inputs a state accounts for. -/
def bag (s : EngineState) : Multiset String :=
  (bagList s : Multiset String)

theorem step_bag {w : Nat} {s s' : EngineState} (h : EngineStep w s s') :
    bag s' = bag s := by
  cases h with
  | start x p f d hlt =>
    unfold bag bagList
    rw [Multiset.coe_eq_coe]
    refine List.perm_iff_count.mpr fun a => ?_
    simp [List.count_append, List.count_cons]
  | finish x r p f₁ f₂ d =>
    unfold bag bagList
    rw [Multiset.coe_eq_coe]
    refine List.perm_iff_count.mpr fun a => ?_
    simp [List.count_append, List.count_cons, List.map_append]
    ring

theorem reach_bag {w : Nat} {s₀ s : EngineState} (h : EngineReach w s₀ s) :
    bag s = bag s₀ := by
  induction h with
  | refl => rfl
  | tail _ hstep ih => rw [step_bag hstep, ih]

theorem step_inFlight {w : Nat} {s s' : EngineState} (h : EngineStep w s s')
    (hb : s.inFlight.length ≤ w) : s'.inFlight.length ≤ w := by
  cases h with
  | start x p f d hlt => simpa using hlt
  | finish x r p f₁ f₂ d => simp at hb ⊢; omega

theorem reach_inFlight {w : Nat} {s₀ s : EngineState} (h : EngineReach w s₀ s)
    (hb : s₀.inFlight.length ≤ w) : s.inFlight.length ≤ w := by
  induction h with
  | refl => exact hb
  | tail _ hstep ih => exact step_inFlight hstep ih

theorem final_done {w : Nat} {inputs : List String} {s : EngineState}
    (hr : EngineReach w (initState inputs) s) (hf : FinalState s) :
    ((s.done.map Prod.fst : List String) : Multiset String) = (inputs : Multiset String)
    ∧ s.done.length = inputs.length := by
  have hb := reach_bag hr
  obtain ⟨h1, h2⟩ := hf
  unfold bag bagList initState at hb
  rw [h1, h2] at hb
  simp only [List.append_nil, List.nil_append, List.map_nil] at hb
  refine ⟨hb, ?_⟩
  have hc := congrArg Multiset.card hb
  simpa using hc

/-- Any input sequence can be drained to completion, each invocation
finishing with a prescribed exit status, by a width-1 schedule: start
the head input, let it finish, repeat. -/
theorem seqRun {w : Nat} (hw : 1 ≤ w) :
    ∀ (inputs : List String) (rs : List Int) (d : List (String × Int)),
      rs.length = inputs.length →
      EngineReach w ⟨inputs, [], d⟩ ⟨[], [], d ++ inputs.zip rs⟩ := by
  intro inputs
  induction inputs with
  | nil =>
    intro rs d hlen
    have h0 : rs.length = 0 := by simpa using hlen
    have : rs = [] := List.eq_nil_of_length_eq_zero h0
    subst this
    simpa using Relation.ReflTransGen.refl
  | cons x p ih =>
    intro rs d hlen
    cases rs with
    | nil => simp at hlen
    | cons r rs =>
      have h1 : EngineStep w ⟨x :: p, [], d⟩ ⟨p, [] ++ [x], d⟩ :=
        EngineStep.start x p [] d (by simpa using hw)
      have h2 : EngineStep w ⟨p, [] ++ x :: [], d⟩ ⟨p, [] ++ [], d ++ [(x, r)]⟩ :=
        EngineStep.finish x r p [] [] d
      have h3 : EngineReach w ⟨p, [], d ++ [(x, r)]⟩
          ⟨[], [], (d ++ [(x, r)]) ++ p.zip rs⟩ :=
        ih rs (d ++ [(x, r)]) (by simpa using hlen)
      have hz : (d ++ [(x, r)]) ++ p.zip rs = d ++ (x :: p).zip (r :: rs) := by
        simp [List.zip_cons_cons]
      rw [hz] at h3
      exact Relation.ReflTransGen.head h1 (Relation.ReflTransGen.head h2 h3)

/-! ## Claim theorems about the Dispatch Engine (C1, C2, C7) -/

/-- C1: for every worker count `w ≥ 1` and input sequence, every
completed run of the engine has invoked the execution capability
exactly `inputs.length` times, the multiset of consumed inputs being
exactly the input sequence (each element consumed by exactly one
invocation); a completed run exists; and on an empty input sequence the
initial state is already final with zero invocations performed. -/
theorem run_invokes_each_input_once (w : Nat) (inputs : List String) (hw : 1 ≤ w) :
    (∀ s, EngineReach w (initState inputs) s → FinalState s →
        s.done.length = inputs.length
        ∧ ((s.done.map Prod.fst : List String) : Multiset String) = (inputs : Multiset String))
    ∧ (∃ s, EngineReach w (initState inputs) s ∧ FinalState s)
    ∧ (inputs = [] → FinalState (initState inputs) ∧ (initState inputs).done = []) := by
  refine ⟨fun s hr hf => ⟨(final_done hr hf).2, (final_done hr hf).1⟩, ?_, ?_⟩
  · refine ⟨⟨[], [], [] ++ inputs.zip (List.replicate inputs.length 0)⟩, ?_, rfl, rfl⟩
    exact seqRun hw inputs (List.replicate inputs.length 0) [] (by simp)
  · intro h
    subst h
    exact ⟨⟨rfl, rfl⟩, rfl⟩

/-- Witness for the C1 theorem at worker count 1 and a one-element
input sequence. -/
theorem run_invokes_each_input_once_inst :
    ∃ s, EngineReach 1 (initState ["a"]) s ∧ FinalState s :=
  (run_invokes_each_input_once 1 ["a"] (by decide)).2.1

/-- C2: in every state the engine can reach, at most `w` invocations
are in flight, and in every reachable state in which `run` has returned
all `inputs.length` invocations have individually completed. -/
theorem inflight_bounded_and_completion (w : Nat) (inputs : List String)
    (s : EngineState) (h : EngineReach w (initState inputs) s) :
    s.inFlight.length ≤ w ∧ (FinalState s → s.done.length = inputs.length) := by
  refine ⟨reach_inFlight h ?_, fun hf => (final_done h hf).2⟩
  show ([] : List String).length ≤ w
  simp

/-- Witness for the C2 theorem at the engine's initial state. -/
theorem inflight_bounded_and_completion_inst :
    (initState ["a"]).inFlight.length ≤ 1
    ∧ (FinalState (initState ["a"]) → (initState ["a"]).done.length = ["a"].length) :=
  inflight_bounded_and_completion 1 ["a"] (initState ["a"]) Relation.ReflTransGen.refl

/-- C7: for every assignment of exit statuses to the invocations —
including failing ones — the engine still dispatches and completes
every input element, and the process's own return value (`return 0;`
in `main`) is unchanged: invocation failures are invisible in the exit
status. -/
theorem failures_do_not_halt_dispatch (w : Nat) (inputs : List String)
    (rs : List Int) (hw : 1 ≤ w) (hlen : rs.length = inputs.length) :
    (∃ s, EngineReach w (initState inputs) s ∧ FinalState s ∧ s.done = inputs.zip rs)
    ∧ mainReturnValue inputs rs = 0
    ∧ (∀ rs' : List Int, mainReturnValue inputs rs' = mainReturnValue inputs rs) := by
  refine ⟨⟨⟨[], [], [] ++ inputs.zip rs⟩, seqRun hw inputs rs [] hlen, ⟨rfl, rfl⟩, by simp⟩,
    rfl, fun _ => rfl⟩

/-- Witness for the C7 theorem with a failing first invocation (exit
status 3) followed by a succeeding one. -/
theorem failures_do_not_halt_dispatch_inst :
    ∃ s, EngineReach 1 (initState ["a", "b"]) s ∧ FinalState s
      ∧ s.done = ["a", "b"].zip [(3 : Int), 0] :=
  (failures_do_not_halt_dispatch 1 ["a", "b"] [3, 0] (by decide) (by decide)).1

end Parallel
